import Mathlib

/-!
Verification of the Oracle sidecar gateway (`src/tauri/sidecar/oracle_sidecar.py`):
a shallow embedding of its pool registry, query execution, value normalization and
error classification, with theorems settling the spec's testable properties.

Python dicts are embedded as insertion-ordered association lists
(`List (κ × α)`): assignment replaces in place or appends, `del` removes the
key, iteration follows insertion order — matching CPython semantics.
Connection pools are identified by allocation order (`Nat`); wall-clock time is
seconds as `Nat`.
-/

namespace OracleSidecar

/-- Python `d.get(k)` / `d[k]` (first matching key; with nodup keys, the key). -/
def dictGet {κ α : Type} [DecidableEq κ] (m : List (κ × α)) (k : κ) : Option α :=
  match m with
  | [] => none
  | (a, v) :: rest => if a = k then some v else dictGet rest k

/-- Python `k in d`. -/
def dictHas {κ α : Type} [DecidableEq κ] (m : List (κ × α)) (k : κ) : Bool :=
  (dictGet m k).isSome

/-- Python `d[k] = v`: replace in place if present, else append (insertion order). -/
def dictSet {κ α : Type} [DecidableEq κ] (m : List (κ × α)) (k : κ) (v : α) :
    List (κ × α) :=
  match m with
  | [] => [(k, v)]
  | (a, w) :: rest => if a = k then (k, v) :: rest else (a, w) :: dictSet rest k v

/-- Python `del d[k]` (removes the first matching key; with nodup keys, the key). -/
def dictDel {κ α : Type} [DecidableEq κ] (m : List (κ × α)) (k : κ) : List (κ × α) :=
  match m with
  | [] => []
  | (a, w) :: rest => if a = k then rest else (a, w) :: dictDel rest k

/-- Keys of a dict, in insertion order. -/
def dictKeys {κ α : Type} (m : List (κ × α)) : List κ :=
  m.map Prod.fst

/-- Constant `POOL_TIMEOUT = 120` — close idle pools after 2 minutes. -/
def POOL_TIMEOUT : Nat := 120

/-- Pydantic model `ConnectionConfig`: name, connect_string, username, password. -/
structure ConnectionConfig where
  name : String
  connect_string : String
  username : String
  password : String
deriving DecidableEq

/-- State of `PoolManager`: `_pools` (key → pool), `_last_used` (key → timestamp).
Pools are identified by creation order; `next_pool_id` is the allocator. -/
structure PoolManagerState where
  pools : List (String × Nat)
  last_used : List (String × Nat)
  next_pool_id : Nat
deriving DecidableEq

/-- Initial state, as `PoolManager.__init__`: empty registries. -/
def PoolManagerState.init : PoolManagerState :=
  { pools := [], last_used := [], next_pool_id := 0 }

/-- Key derivation `PoolManager._pool_key`: `f"{config.username}@{config.connect_string}"`. -/
def _pool_key (config : ConnectionConfig) : String :=
  config.username ++ "@" ++ config.connect_string

/-- Embedding of `PoolManager.get_pool`: under the lock, create the pool if the key is absent,
refresh `_last_used[key]` unconditionally, return `_pools[key]`. -/
def get_pool (s : PoolManagerState) (config : ConnectionConfig) (now : Nat) :
    Nat × PoolManagerState :=
  let key := _pool_key config
  let s1 :=
    if dictHas s.pools key then s
    else { s with pools := dictSet s.pools key s.next_pool_id,
                  next_pool_id := s.next_pool_id + 1 }
  let s2 := { s1 with last_used := dictSet s1.last_used key now }
  ((dictGet s2.pools key).getD 0, s2)

/-- Embedding of `PoolManager.close_pool`: if the key is present, close the pool (errors are
caught and logged) and delete it from `_pools` and `_last_used`. -/
def close_pool (s : PoolManagerState) (key : String) : PoolManagerState :=
  if dictHas s.pools key then
    { s with pools := dictDel s.pools key, last_used := dictDel s.last_used key }
  else s

/-- Embedding of `PoolManager.close_all`: close every pool — each `pool.close()` failure is
caught and logged (returned here as the warning list), never propagated — then
clear both registries. Total: it cannot raise. `fails` says which pool objects
fail to close. -/
def close_all (fails : Nat → Bool) (s : PoolManagerState) :
    PoolManagerState × List String :=
  let warnings := (s.pools.filter (fun kv => fails kv.2)).map Prod.fst
  ({ s with pools := [], last_used := [] }, warnings)

/-- Embedding of `PoolManager.pool_count`: number of live registry entries. -/
def pool_count (s : PoolManagerState) : Nat :=
  s.pools.length

/-- First phase of a `cleanup_idle_pools` tick: under the lock, collect the keys
whose `now - last_used` exceeds the idle threshold. -/
def scan_idle (s : PoolManagerState) (now : Nat) : List String :=
  (s.last_used.filter (fun kv => decide (now - kv.2 > POOL_TIMEOUT))).map Prod.fst

/-- Second phase of a `cleanup_idle_pools` tick: `close_pool` each collected key
(each call reacquires the lock separately). -/
def close_keys (s : PoolManagerState) (keys : List String) : PoolManagerState :=
  keys.foldl close_pool s

/-- One `cleanup_idle_pools` tick with nothing interleaved between its two phases. -/
def reaper_tick (s : PoolManagerState) (now : Nat) : PoolManagerState :=
  close_keys s (scan_idle s now)

/-- A sequence of `get_pool` calls (timestamps irrelevant to keying). -/
def run_requests (s : PoolManagerState) (cs : List ConnectionConfig) :
    PoolManagerState :=
  cs.foldl (fun st c => (get_pool st c 0).2) s

/-- Python `datetime` value (naive, microsecond precision), as the driver
returns for DATE/TIMESTAMP columns. -/
structure PyDatetime where
  year : Nat
  month : Nat
  day : Nat
  hour : Nat
  minute : Nat
  second : Nat
  microsecond : Nat
deriving DecidableEq

/-- Zero-pad a number to `w` digits, as Python `%0Nd` formatting. -/
def padNum (w : Nat) (n : Nat) : String :=
  let digits := toString n
  let pad := w - digits.length
  String.mk (List.replicate pad '0') ++ digits

/-- Python `datetime.isoformat()`: `YYYY-MM-DDTHH:MM:SS[.ffffff]`, the
microsecond part present only when nonzero. -/
def PyDatetime.isoformat (d : PyDatetime) : String :=
  padNum 4 d.year ++ "-" ++ padNum 2 d.month ++ "-" ++ padNum 2 d.day ++ "T" ++
  padNum 2 d.hour ++ ":" ++ padNum 2 d.minute ++ ":" ++ padNum 2 d.second ++
  (if d.microsecond = 0 then "" else "." ++ padNum 6 d.microsecond)

/-- The universe of Python values a DB cell can hold, as `_convert_value`
discriminates them: `None`, `bool`, `int`, `float` (payload opaque — the
function passes floats through unchanged), `str`, `datetime`, and any other
driver type carried with its `str()` rendering. -/
inductive DbValue where
  | vnone
  | vbool (b : Bool)
  | vint (i : Int)
  | vfloat (payload : Nat)
  | vstr (s : String)
  | vdatetime (d : PyDatetime)
  | vother (str_form : String)
deriving DecidableEq

/-- Embedding of `_convert_value`: `None` and `int/float/str/bool` pass through, `datetime`
becomes `val.isoformat()`, everything else becomes `str(val)`. -/
def _convert_value (val : DbValue) : DbValue :=
  match val with
  | .vnone => .vnone
  | .vbool b => .vbool b
  | .vint i => .vint i
  | .vfloat p => .vfloat p
  | .vstr s => .vstr s
  | .vdatetime d => .vstr d.isoformat
  | .vother r => .vstr r

/-- The closed transport-safe set: null, boolean, number (int or float), string. -/
def isTransportSafe : DbValue → Bool
  | .vnone => true
  | .vbool _ => true
  | .vint _ => true
  | .vfloat _ => true
  | .vstr _ => true
  | .vdatetime _ => false
  | .vother _ => false

/-- A JSON field that may be omitted from a request body. -/
inductive FieldInput (α : Type) where
  | omitted
  | given (a : α)

/-- Pydantic parsing of `max_rows: Optional[int] = 1000`: an omitted field takes
the default `1000`; an explicit `null` gives `None`; an integer passes through. -/
def parse_max_rows : FieldInput (Option Int) → Option Int
  | .omitted => some 1000
  | .given v => v

/-- Python truthiness of `request.max_rows` in `if request.max_rows:` —
`None` and `0` are falsy, every other integer truthy. -/
def maxRowsTruthy : Option Int → Bool
  | none => false
  | some k => k != 0

/-- The fetch step of `_execute_query_sync`: `cursor.fetchmany(max_rows)` when
`max_rows` is truthy, else `cursor.fetchall()`. `raw` is the statement's full
result set in cursor order. -/
def fetch_rows (raw : List (List DbValue)) (max_rows : Option Int) :
    List (List DbValue) :=
  if maxRowsTruthy max_rows then raw.take (max_rows.getD 0).toNat else raw

/-- Result of `_execute_query_sync` in positional (`as_dict=False`) mode. -/
structure QueryResultPos where
  columns : List String
  rows : List (List DbValue)
  row_count : Nat
deriving DecidableEq

/-- Result of `_execute_query_sync` in dict (`as_dict=True`) mode; each row is a
Python dict from column name to converted value. -/
structure QueryResultDict where
  columns : List String
  rows : List (List (String × DbValue))
  row_count : Nat
deriving DecidableEq

/-- The dict-mode row builder
`{columns[i]: _convert_value(val) for i, val in enumerate(row)}`: inserting in
column order into a fresh dict, so a duplicate column name overwrites the
earlier entry. (Driver contract: `len(row) = len(columns)`, so `enumerate`
pairs positionally, i.e. zips.) -/
def dict_row (columns : List String) (row : List DbValue) :
    List (String × DbValue) :=
  (columns.zip row).foldl (fun d kv => dictSet d kv.1 (_convert_value kv.2)) []

/-- Embedding of `_execute_query_sync` with `as_dict=False`: fetch at most `max_rows` rows
(all when falsy), convert every cell, report `row_count = len(result_rows)`.
`columns` is the cursor description's column names; `raw` the full result set. -/
def _execute_query_sync (columns : List String) (raw : List (List DbValue))
    (max_rows : Option Int) : QueryResultPos :=
  let rows := fetch_rows raw max_rows
  let result_rows := rows.map (fun r => r.map _convert_value)
  { columns := columns, rows := result_rows, row_count := result_rows.length }

/-- Embedding of `_execute_query_sync` with `as_dict=True`: same fetch, rows rendered as dicts. -/
def _execute_query_sync_dict (columns : List String) (raw : List (List DbValue))
    (max_rows : Option Int) : QueryResultDict :=
  let rows := fetch_rows raw max_rows
  let result_rows := rows.map (dict_row columns)
  { columns := columns, rows := result_rows, row_count := result_rows.length }

/-- The object `e.args[0]` of a driver error, when present; `getattr(_, 'code', 0)`
is modelled by an optional code attribute. -/
structure DriverErrorObj where
  code : Option Int
deriving DecidableEq

/-- An `oracledb.Error`: its `args` tuple and its `str(e)` message. -/
structure OracleError where
  args : List DriverErrorObj
  message : String
deriving DecidableEq

/-- Pydantic model `ErrorResponse`. -/
structure ErrorResponse where
  code : Int
  message : String
  hint : Option String
deriving DecidableEq

/-- The static hint table of `oracle_error_to_response`. -/
def hints : List (Int × String) :=
  [(1017, "Check your username and password."),
   (12154, "Verify connection string format: host:port/service_name"),
   (12170, "Connection timed out. Check network and firewall."),
   (12541, "No listener at specified host:port. Verify the address."),
   (12545, "Target host or object does not exist."),
   (942, "Table or view does not exist, or you lack permissions."),
   (1031, "Insufficient privileges. Contact your DBA."),
   (3136, "Query exceeded timeout. Try a simpler query."),
   (3114, "Connection to database lost. Check network connectivity.")]

/-- Embedding of `oracle_error_to_response`: code is `e.args[0].code` when reported, else 0;
message is `str(e)`; hint is `hints.get(code)`. A pure function of the error. -/
def oracle_error_to_response (e : OracleError) : ErrorResponse :=
  let error_obj := e.args.head?
  let code := match error_obj with
    | some o => o.code.getD 0
    | none => 0
  { code := code, message := e.message, hint := dictGet hints code }

/-! ## Association-list (Python dict) lemmas -/

theorem dictGet_dictSet_self {κ α : Type} [DecidableEq κ] (m : List (κ × α)) (k : κ) (v : α) :
    dictGet (dictSet m k v) k = some v := by
  induction m with
  | nil => simp [dictSet, dictGet]
  | cons hd rest ih =>
    obtain ⟨a, w⟩ := hd
    by_cases h : a = k <;> simp [dictSet, dictGet, h, ih]

theorem dictGet_dictSet_ne {κ α : Type} [DecidableEq κ] (m : List (κ × α)) (k k' : κ) (v : α)
    (h : k ≠ k') : dictGet (dictSet m k v) k' = dictGet m k' := by
  induction m with
  | nil => simp [dictSet, dictGet, h]
  | cons hd rest ih =>
    obtain ⟨a, w⟩ := hd
    by_cases ha : a = k
    · subst ha; simp [dictSet, dictGet, h]
    · simp [dictSet, dictGet, ha, ih]

theorem dictGet_isSome_iff {κ α : Type} [DecidableEq κ] (m : List (κ × α)) (k : κ) :
    (dictGet m k).isSome = true ↔ k ∈ dictKeys m := by
  induction m with
  | nil => simp [dictGet, dictKeys]
  | cons hd rest ih =>
    obtain ⟨a, w⟩ := hd
    by_cases h : a = k
    · subst h; simp [dictGet, dictKeys]
    · simp [dictGet, dictKeys, h, Ne.symm h] at ih ⊢
      exact ih

theorem dictHas_iff_mem {κ α : Type} [DecidableEq κ] (m : List (κ × α)) (k : κ) :
    dictHas m k = true ↔ k ∈ dictKeys m := by
  simpa [dictHas] using dictGet_isSome_iff m k

theorem dictGet_eq_none_iff {κ α : Type} [DecidableEq κ] (m : List (κ × α)) (k : κ) :
    dictGet m k = none ↔ k ∉ dictKeys m := by
  rw [← dictGet_isSome_iff]
  cases dictGet m k <;> simp

theorem dictKeys_dictSet {κ α : Type} [DecidableEq κ] (m : List (κ × α)) (k : κ) (v : α) :
    dictKeys (dictSet m k v) = if dictHas m k then dictKeys m else dictKeys m ++ [k] := by
  induction m with
  | nil => simp [dictSet, dictKeys, dictHas, dictGet]
  | cons hd rest ih =>
    obtain ⟨a, w⟩ := hd
    by_cases h : a = k
    · subst h; simp [dictSet, dictKeys, dictHas, dictGet]
    · have hh : dictHas ((a, w) :: rest) k = dictHas rest k := by
        simp [dictHas, dictGet, h]
    
      by_cases h2 : dictHas rest k
      · rw [hh, if_pos h2]
        rw [if_pos h2] at ih
        simp [dictSet, dictKeys, h] at ih ⊢
        exact ih
      · rw [hh, if_neg h2]
        rw [if_neg h2] at ih
        simp [dictSet, dictKeys, h] at ih ⊢
        exact ih

theorem nodup_dictKeys_dictSet {κ α : Type} [DecidableEq κ] (m : List (κ × α)) (k : κ) (v : α)
    (h : (dictKeys m).Nodup) : (dictKeys (dictSet m k v)).Nodup := by
  rw [dictKeys_dictSet]
  by_cases h2 : dictHas m k
  · simpa [h2] using h
  · have : k ∉ dictKeys m := by
      intro hk
      exact h2 ((dictHas_iff_mem m k).mpr hk)
    simp [h2, List.nodup_append, this, h]

theorem dictDel_sublist {κ α : Type} [DecidableEq κ] (m : List (κ × α)) (k : κ) :
    List.Sublist (dictDel m k) m := by
  induction m with
  | nil => simp [dictDel]
  | cons hd rest ih =>
    obtain ⟨a, w⟩ := hd
    by_cases h : a = k
    · simp [dictDel, h]
    · simpa [dictDel, h] using ih.cons₂ (a, w)

theorem dictKeys_dictDel_sublist {κ α : Type} [DecidableEq κ] (m : List (κ × α)) (k : κ) :
    List.Sublist (dictKeys (dictDel m k)) (dictKeys m) :=
  (dictDel_sublist m k).map Prod.fst

theorem nodup_dictKeys_dictDel {κ α : Type} [DecidableEq κ] (m : List (κ × α)) (k : κ)
    (h : (dictKeys m).Nodup) : (dictKeys (dictDel m k)).Nodup :=
  h.sublist (dictKeys_dictDel_sublist m k)

theorem dictGet_dictDel_ne {κ α : Type} [DecidableEq κ] (m : List (κ × α)) (k k' : κ)
    (h : k' ≠ k) : dictGet (dictDel m k) k' = dictGet m k' := by
  induction m with
  | nil => simp [dictDel]
  | cons hd rest ih =>
    obtain ⟨a, w⟩ := hd
    by_cases ha : a = k
    · subst ha; simp [dictDel, dictGet, Ne.symm h]
    · simp [dictDel, dictGet, ha, ih]

theorem dictGet_dictDel_self {κ α : Type} [DecidableEq κ] (m : List (κ × α)) (k : κ)
    (h : (dictKeys m).Nodup) : dictGet (dictDel m k) k = none := by
  induction m with
  | nil => simp [dictDel, dictGet]
  | cons hd rest ih =>
    obtain ⟨a, w⟩ := hd
    simp [dictKeys] at h
    by_cases ha : a = k
    · subst ha
      rw [dictGet_eq_none_iff]
      simpa [dictDel, dictKeys] using h.1
    · simp [dictDel, dictGet, ha]
      exact ih h.2

theorem dictGet_of_mem {κ α : Type} [DecidableEq κ] (m : List (κ × α)) (k : κ) (v : α)
    (h : (dictKeys m).Nodup) (hm : (k, v) ∈ m) : dictGet m k = some v := by
  induction m with
  | nil => simp at hm
  | cons hd rest ih =>
    obtain ⟨a, w⟩ := hd
    simp [dictKeys] at h
    rcases List.mem_cons.mp hm with heq | hmem
    · rw [show a = k by injection heq.symm, show w = v by injection heq.symm]
      simp [dictGet]
    · have hak : a ≠ k := by
        intro hak
        subst hak
        exact h.1 v hmem
      simp [dictGet, hak]
      exact ih h.2 hmem

theorem mem_of_dictGet {κ α : Type} [DecidableEq κ] (m : List (κ × α)) (k : κ) (v : α)
    (h : dictGet m k = some v) : (k, v) ∈ m := by
  induction m with
  | nil => simp [dictGet] at h
  | cons hd rest ih =>
    obtain ⟨a, w⟩ := hd
    by_cases ha : a = k
    · subst ha
      simp [dictGet] at h
      simp [h]
    · simp [dictGet, ha] at h
      exact List.mem_cons_of_mem _ (ih h)

/-! ## PoolManager lemmas -/

theorem get_pool_pools_has (s : PoolManagerState) (c : ConnectionConfig) (t : Nat) :
    dictHas ((get_pool s c t).2).pools (_pool_key c) = true := by
  by_cases h : dictHas s.pools (_pool_key c)
  · simp [get_pool, h]
  · have hpools : ((get_pool s c t).2).pools
        = dictSet s.pools (_pool_key c) s.next_pool_id := by
      simp [get_pool, h]
    rw [hpools]
    simp [dictHas, dictGet_dictSet_self]

theorem get_pool_pools_of_has (s : PoolManagerState) (c : ConnectionConfig) (t : Nat)
    (h : dictHas s.pools (_pool_key c) = true) :
    ((get_pool s c t).2).pools = s.pools := by
  simp [get_pool, h]

theorem get_pool_fst_eq (s : PoolManagerState) (c : ConnectionConfig) (t : Nat) :
    (get_pool s c t).1 = (dictGet ((get_pool s c t).2).pools (_pool_key c)).getD 0 := rfl

theorem get_pool_pools_keys_toFinset (s : PoolManagerState) (c : ConnectionConfig) (t : Nat) :
    (dictKeys ((get_pool s c t).2).pools).toFinset
      = insert (_pool_key c) (dictKeys s.pools).toFinset := by
  by_cases h : dictHas s.pools (_pool_key c)
  · rw [get_pool_pools_of_has s c t h]
    have hm : _pool_key c ∈ (dictKeys s.pools).toFinset :=
      List.mem_toFinset.mpr ((dictHas_iff_mem _ _).mp h)
    exact (Finset.insert_eq_self.mpr hm).symm
  · have hpools : ((get_pool s c t).2).pools = dictSet s.pools (_pool_key c) s.next_pool_id := by
      simp [get_pool, h]
    rw [hpools, dictKeys_dictSet, if_neg (by simp [h])]
    rw [List.toFinset_append]
    ext x
    simp [or_comm]

theorem get_pool_pools_nodup (s : PoolManagerState) (c : ConnectionConfig) (t : Nat)
    (h : (dictKeys s.pools).Nodup) : (dictKeys ((get_pool s c t).2).pools).Nodup := by
  by_cases hh : dictHas s.pools (_pool_key c)
  · rw [get_pool_pools_of_has s c t hh]; exact h
  · have hpools : ((get_pool s c t).2).pools = dictSet s.pools (_pool_key c) s.next_pool_id := by
      simp [get_pool, hh]
    rw [hpools]
    exact nodup_dictKeys_dictSet _ _ _ h

theorem run_requests_cons (s : PoolManagerState) (c : ConnectionConfig)
    (rest : List ConnectionConfig) :
    run_requests s (c :: rest) = run_requests (get_pool s c 0).2 rest := rfl

theorem run_requests_keys_toFinset (cs : List ConnectionConfig) (s : PoolManagerState) :
    (dictKeys ((run_requests s cs).pools)).toFinset
      = (dictKeys s.pools).toFinset ∪ (cs.map _pool_key).toFinset := by
  induction cs generalizing s with
  | nil => simp [run_requests]
  | cons c rest ih =>
    rw [run_requests_cons, ih, get_pool_pools_keys_toFinset]
    ext x
    simp

theorem run_requests_pools_nodup (cs : List ConnectionConfig) (s : PoolManagerState)
    (h : (dictKeys s.pools).Nodup) : (dictKeys ((run_requests s cs).pools)).Nodup := by
  induction cs generalizing s with
  | nil => exact h
  | cons c rest ih =>
    rw [run_requests_cons]
    exact ih _ (get_pool_pools_nodup s c 0 h)

theorem dictSet_append_of_not_has {κ α : Type} [DecidableEq κ] (m : List (κ × α))
    (k : κ) (v : α) (h : dictHas m k = false) : dictSet m k v = m ++ [(k, v)] := by
  induction m with
  | nil => simp [dictSet]
  | cons hd rest ih =>
    obtain ⟨a, w⟩ := hd
    by_cases ha : a = k
    · subst ha
      simp [dictHas, dictGet] at h
    · have hrest : dictHas rest k = false := by
        simpa [dictHas, dictGet, ha] using h
      simp [dictSet, ha, ih hrest]

theorem get_pool_alloc_invariant (s : PoolManagerState) (c : ConnectionConfig) (t : Nat)
    (h1 : ∀ kv ∈ s.pools, kv.2 < s.next_pool_id)
    (h2 : (s.pools.map Prod.snd).Nodup) :
    (∀ kv ∈ ((get_pool s c t).2).pools, kv.2 < ((get_pool s c t).2).next_pool_id) ∧
    (((get_pool s c t).2).pools.map Prod.snd).Nodup := by
  by_cases h : dictHas s.pools (_pool_key c)
  · constructor
    · intro kv hkv
      have hp : ((get_pool s c t).2).pools = s.pools := get_pool_pools_of_has s c t h
      have hn : ((get_pool s c t).2).next_pool_id = s.next_pool_id := by
        simp [get_pool, h]
      rw [hn]
      exact h1 kv (by rwa [hp] at hkv)
    · rw [get_pool_pools_of_has s c t h]
      exact h2
  · have hp : ((get_pool s c t).2).pools = s.pools ++ [(_pool_key c, s.next_pool_id)] := by
      have := dictSet_append_of_not_has s.pools (_pool_key c) s.next_pool_id
        (by simpa using h)
      simp [get_pool, h, this]
    have hn : ((get_pool s c t).2).next_pool_id = s.next_pool_id + 1 := by
      simp [get_pool, h]
    constructor
    · intro kv hkv
      rw [hp] at hkv
      rw [hn]
      rcases List.mem_append.mp hkv with hm | hm
      · exact Nat.lt_succ_of_lt (h1 kv hm)
      · simp at hm
        simp [hm]
    · rw [hp, List.map_append]
      simp only [List.map_cons, List.map_nil]
      rw [List.nodup_append]
      refine ⟨h2, List.nodup_singleton _, ?_⟩
      intro v hv hv'
      simp at hv'
      rcases List.mem_map.mp hv with ⟨kv, hkv, rfl⟩
      exact absurd (h1 kv hkv) (by omega)

theorem run_requests_alloc_invariant (cs : List ConnectionConfig) (s : PoolManagerState)
    (h1 : ∀ kv ∈ s.pools, kv.2 < s.next_pool_id)
    (h2 : (s.pools.map Prod.snd).Nodup) :
    (∀ kv ∈ ((run_requests s cs).pools), kv.2 < (run_requests s cs).next_pool_id) ∧
    ((run_requests s cs).pools.map Prod.snd).Nodup := by
  induction cs generalizing s with
  | nil => exact ⟨h1, h2⟩
  | cons c rest ih =>
    rw [run_requests_cons]
    have := get_pool_alloc_invariant s c 0 h1 h2
    exact ih _ this.1 this.2

theorem get_pool_fst_some (s : PoolManagerState) (c : ConnectionConfig) (t : Nat) :
    dictGet ((get_pool s c t).2).pools (_pool_key c) = some (get_pool s c t).1 := by
  have h := get_pool_pools_has s c t
  rcases Option.isSome_iff_exists.mp (by simpa [dictHas] using h) with ⟨v, hv⟩
  rw [get_pool_fst_eq, hv]
  rfl

theorem get_pool_distinct_keys_distinct_pools
    (s : PoolManagerState) (c1 c2 : ConnectionConfig) (t1 t2 : Nat)
    (h1 : ∀ kv ∈ s.pools, kv.2 < s.next_pool_id)
    (h2 : (s.pools.map Prod.snd).Nodup)
    (hne : _pool_key c1 ≠ _pool_key c2) :
    (get_pool s c1 t1).1 ≠ (get_pool (get_pool s c1 t1).2 c2 t2).1 := by
  have hinv := get_pool_alloc_invariant s c1 t1 h1 h2
  set s1 := (get_pool s c1 t1).2 with hs1
  have hget1 : dictGet s1.pools (_pool_key c1) = some (get_pool s c1 t1).1 :=
    get_pool_fst_some s c1 t1
  have hmem1 : (_pool_key c1, (get_pool s c1 t1).1) ∈ s1.pools :=
    mem_of_dictGet _ _ _ hget1
  by_cases h : dictHas s1.pools (_pool_key c2)
  · rcases Option.isSome_iff_exists.mp (by simpa [dictHas] using h) with ⟨v2, hv2⟩
    have hfst2 : (get_pool s1 c2 t2).1 = v2 := by
      rw [get_pool_fst_eq, get_pool_pools_of_has s1 c2 t2 h, hv2]
      rfl
    rw [hfst2]
    intro heq
    have hmem2 : (_pool_key c2, v2) ∈ s1.pools := mem_of_dictGet _ _ _ hv2
    rw [heq] at hmem1
    have := List.inj_on_of_nodup_map hinv.2 hmem1 hmem2 rfl
    exact hne (congrArg Prod.fst this)
  · have hfst2 : (get_pool s1 c2 t2).1 = s1.next_pool_id := by
      rw [get_pool_fst_eq]
      have hp : ((get_pool s1 c2 t2).2).pools
          = dictSet s1.pools (_pool_key c2) s1.next_pool_id := by
        simp [get_pool, h]
      rw [hp, dictGet_dictSet_self]
      rfl
    rw [hfst2]
    exact Nat.ne_of_lt (hinv.1 _ hmem1)

/-! ## Claim theorems -/

/-- C1: two `get_pool` calls whose configs agree on `username` and
`connect_string` return the same pool object, and `pool_count` after the second
call equals `pool_count` after the first. -/
theorem get_pool_same_identity_shares_pool
    (s : PoolManagerState) (c1 c2 : ConnectionConfig) (t1 t2 : Nat)
    (hu : c1.username = c2.username) (hc : c1.connect_string = c2.connect_string) :
    (get_pool (get_pool s c1 t1).2 c2 t2).1 = (get_pool s c1 t1).1 ∧
    pool_count (get_pool (get_pool s c1 t1).2 c2 t2).2
      = pool_count (get_pool s c1 t1).2 := by
  have hkey : _pool_key c2 = _pool_key c1 := by
    simp [_pool_key, hu, hc]
  have hhas : dictHas ((get_pool s c1 t1).2).pools (_pool_key c2) = true := by
    rw [hkey]; exact get_pool_pools_has s c1 t1
  have hpools : ((get_pool (get_pool s c1 t1).2 c2 t2).2).pools
      = ((get_pool s c1 t1).2).pools :=
    get_pool_pools_of_has _ c2 t2 hhas
  constructor
  · rw [get_pool_fst_eq _ c2 t2, get_pool_fst_eq s c1 t1, hpools, hkey]
  · simp [pool_count, hpools]

/-- Witness for C1 at concrete configs differing only in name and password. -/
theorem get_pool_same_identity_shares_pool_witness :
    (get_pool (get_pool PoolManagerState.init ⟨"n1", "db", "u", "p1"⟩ 0).2
        ⟨"n2", "db", "u", "p2"⟩ 5).1
      = (get_pool PoolManagerState.init ⟨"n1", "db", "u", "p1"⟩ 0).1 ∧
    pool_count (get_pool (get_pool PoolManagerState.init ⟨"n1", "db", "u", "p1"⟩ 0).2
        ⟨"n2", "db", "u", "p2"⟩ 5).2
      = pool_count (get_pool PoolManagerState.init ⟨"n1", "db", "u", "p1"⟩ 0).2 :=
  get_pool_same_identity_shares_pool PoolManagerState.init
    ⟨"n1", "db", "u", "p1"⟩ ⟨"n2", "db", "u", "p2"⟩ 0 5 rfl rfl

/-- C2 counterexample: the configs `("a", "b@c")` and `("a@b", "c")` are distinct
(username, connect_string) pairs, yet both derive the key `"a@b@c"`: after both
requests `pool_count` is 1, not 2, and the second call returns the first call's
pool. -/
theorem distinct_identities_share_pool_counterexample :
    ((⟨"n1", "b@c", "a", "p"⟩ : ConnectionConfig).username,
     (⟨"n1", "b@c", "a", "p"⟩ : ConnectionConfig).connect_string) ≠
    ((⟨"n2", "c", "a@b", "p"⟩ : ConnectionConfig).username,
     (⟨"n2", "c", "a@b", "p"⟩ : ConnectionConfig).connect_string) ∧
    pool_count (run_requests PoolManagerState.init
      [⟨"n1", "b@c", "a", "p"⟩, ⟨"n2", "c", "a@b", "p"⟩]) = 1 ∧
    (get_pool (run_requests PoolManagerState.init [⟨"n1", "b@c", "a", "p"⟩])
        ⟨"n2", "c", "a@b", "p"⟩ 0).1
      = (get_pool PoolManagerState.init ⟨"n1", "b@c", "a", "p"⟩ 0).1 := by
  decide

/-- C2 (amended): starting from an empty registry, `pool_count` after a batch of
requests equals the number of distinct derived keys `username@connect_string`,
and is invariant under permuting the requests; moreover, from any registry
reachable from the empty one, two requests with distinct derived keys never
share a pool. -/
theorem pool_count_eq_distinct_keys (cs cs' : List ConnectionConfig)
    (h : cs.Perm cs') :
    pool_count (run_requests PoolManagerState.init cs)
      = ((cs.map _pool_key).dedup).length ∧
    pool_count (run_requests PoolManagerState.init cs')
      = pool_count (run_requests PoolManagerState.init cs) ∧
    (∀ (c1 c2 : ConnectionConfig) (t1 t2 : Nat), _pool_key c1 ≠ _pool_key c2 →
      (get_pool (run_requests PoolManagerState.init cs) c1 t1).1
        ≠ (get_pool (get_pool (run_requests PoolManagerState.init cs) c1 t1).2
            c2 t2).1) := by
  have main : ∀ ds : List ConnectionConfig,
      pool_count (run_requests PoolManagerState.init ds)
        = ((ds.map _pool_key).dedup).length := by
    intro ds
    have hnd := run_requests_pools_nodup ds PoolManagerState.init
      (by simp [PoolManagerState.init, dictKeys])
    have hfin : (dictKeys ((run_requests PoolManagerState.init ds).pools)).toFinset
        = (ds.map _pool_key).toFinset := by
      simpa [PoolManagerState.init, dictKeys] using
        run_requests_keys_toFinset ds PoolManagerState.init
    calc pool_count (run_requests PoolManagerState.init ds)
        = (dictKeys ((run_requests PoolManagerState.init ds).pools)).length := by
          simp [pool_count, dictKeys]
      _ = (dictKeys ((run_requests PoolManagerState.init ds).pools)).toFinset.card :=
          (List.toFinset_card_of_nodup hnd).symm
      _ = (ds.map _pool_key).toFinset.card := by rw [hfin]
      _ = ((ds.map _pool_key).dedup).length := List.card_toFinset _
  refine ⟨main cs, ?_, ?_⟩
  · rw [main cs, main cs']
    exact ((h.map _pool_key).dedup).length_eq.symm
  · intro c1 c2 t1 t2 hne
    have hinv := run_requests_alloc_invariant cs PoolManagerState.init
      (by simp [PoolManagerState.init]) (by simp [PoolManagerState.init])
    exact get_pool_distinct_keys_distinct_pools _ c1 c2 t1 t2 hinv.1 hinv.2 hne

/-- Witness for the amended C2 at two distinct true identities plus a repeat,
including the no-sharing conjunct at two further distinct identities. -/
theorem pool_count_eq_distinct_keys_witness :
    pool_count (run_requests PoolManagerState.init
      [⟨"n1", "db1", "u", "p"⟩, ⟨"n2", "db2", "u", "p"⟩, ⟨"n3", "db1", "u", "p"⟩])
      = (([⟨"n1", "db1", "u", "p"⟩, ⟨"n2", "db2", "u", "p"⟩,
           ⟨"n3", "db1", "u", "p"⟩] : List ConnectionConfig).map _pool_key).dedup.length ∧
    pool_count (run_requests PoolManagerState.init
      [⟨"n2", "db2", "u", "p"⟩, ⟨"n1", "db1", "u", "p"⟩, ⟨"n3", "db1", "u", "p"⟩])
      = pool_count (run_requests PoolManagerState.init
      [⟨"n1", "db1", "u", "p"⟩, ⟨"n2", "db2", "u", "p"⟩, ⟨"n3", "db1", "u", "p"⟩]) ∧
    (get_pool (run_requests PoolManagerState.init
        [⟨"n1", "db1", "u", "p"⟩, ⟨"n2", "db2", "u", "p"⟩, ⟨"n3", "db1", "u", "p"⟩])
        ⟨"n4", "db1", "u", "p"⟩ 7).1
      ≠ (get_pool (get_pool (run_requests PoolManagerState.init
          [⟨"n1", "db1", "u", "p"⟩, ⟨"n2", "db2", "u", "p"⟩, ⟨"n3", "db1", "u", "p"⟩])
          ⟨"n4", "db1", "u", "p"⟩ 7).2 ⟨"n5", "db3", "u", "p"⟩ 8).1 :=
  ⟨(pool_count_eq_distinct_keys
      [⟨"n1", "db1", "u", "p"⟩, ⟨"n2", "db2", "u", "p"⟩, ⟨"n3", "db1", "u", "p"⟩]
      [⟨"n2", "db2", "u", "p"⟩, ⟨"n1", "db1", "u", "p"⟩, ⟨"n3", "db1", "u", "p"⟩]
      (by decide)).1,
   (pool_count_eq_distinct_keys
      [⟨"n1", "db1", "u", "p"⟩, ⟨"n2", "db2", "u", "p"⟩, ⟨"n3", "db1", "u", "p"⟩]
      [⟨"n2", "db2", "u", "p"⟩, ⟨"n1", "db1", "u", "p"⟩, ⟨"n3", "db1", "u", "p"⟩]
      (by decide)).2.1,
   (pool_count_eq_distinct_keys
      [⟨"n1", "db1", "u", "p"⟩, ⟨"n2", "db2", "u", "p"⟩, ⟨"n3", "db1", "u", "p"⟩]
      [⟨"n2", "db2", "u", "p"⟩, ⟨"n1", "db1", "u", "p"⟩, ⟨"n3", "db1", "u", "p"⟩]
      (by decide)).2.2 ⟨"n4", "db1", "u", "p"⟩ ⟨"n5", "db3", "u", "p"⟩ 7 8 (by decide)⟩

/-- C6: `close_all` never raises (every `pool.close()` failure is caught), and
after each of two successive calls — whatever pools fail to close — `pool_count`
is 0. -/
theorem close_all_twice_idempotent (s : PoolManagerState) (fails : Nat → Bool) :
    pool_count (close_all fails s).1 = 0 ∧
    pool_count (close_all fails (close_all fails s).1).1 = 0 := by
  simp [close_all, pool_count]

/-! ## Reaper lemmas -/

theorem close_pool_pools_dictGet_ne (s : PoolManagerState) (k k' : String)
    (h : k' ≠ k) : dictGet (close_pool s k).pools k' = dictGet s.pools k' := by
  by_cases hh : dictHas s.pools k <;>
    simp [close_pool, hh, dictGet_dictDel_ne _ _ _ h]

theorem close_pool_pools_dictGet_self (s : PoolManagerState) (k : String)
    (h : (dictKeys s.pools).Nodup) : dictGet (close_pool s k).pools k = none := by
  by_cases hh : dictHas s.pools k
  · simp [close_pool, hh, dictGet_dictDel_self _ _ h]
  · have h0 : dictGet s.pools k = none := by
      cases hdg : dictGet s.pools k with
      | none => rfl
      | some v => exact absurd (by simp [dictHas, hdg]) hh
    simp [close_pool, hh, h0]

theorem close_pool_pools_nodup (s : PoolManagerState) (k : String)
    (h : (dictKeys s.pools).Nodup) : (dictKeys (close_pool s k).pools).Nodup := by
  by_cases hh : dictHas s.pools k <;>
    simp [close_pool, hh, nodup_dictKeys_dictDel _ _ h, h]

theorem close_keys_dictGet (ks : List String) (s : PoolManagerState) (k : String)
    (h : (dictKeys s.pools).Nodup) :
    dictGet (close_keys s ks).pools k
      = if k ∈ ks then none else dictGet s.pools k := by
  induction ks generalizing s with
  | nil => simp [close_keys]
  | cons a rest ih =>
    rw [show close_keys s (a :: rest) = close_keys (close_pool s a) rest from rfl,
        ih _ (close_pool_pools_nodup s a h)]
    by_cases hmem : k ∈ rest
    · simp [hmem]
    · by_cases hka : k = a
      · subst hka
        simp [hmem, close_pool_pools_dictGet_self s k h]
      · simp [hmem, hka, close_pool_pools_dictGet_ne s a k hka]

theorem mem_scan_idle_iff (s : PoolManagerState) (now : Nat) (k : String) (t : Nat)
    (hnd : (dictKeys s.last_used).Nodup) (hget : dictGet s.last_used k = some t) :
    k ∈ scan_idle s now ↔ now - t > POOL_TIMEOUT := by
  unfold scan_idle
  constructor
  · intro hk
    rcases List.mem_map.mp hk with ⟨⟨k', t'⟩, hmem, hfst⟩
    simp only at hfst
    subst hfst
    rcases List.mem_filter.mp hmem with ⟨hmem', hp⟩
    have hgt' := dictGet_of_mem _ _ _ hnd hmem'
    rw [hget] at hgt'
    injection hgt' with ht
    subst ht
    simpa using hp
  · intro hgt
    exact List.mem_map.mpr
      ⟨(k, t), List.mem_filter.mpr ⟨mem_of_dictGet _ _ _ hget, by simpa using hgt⟩, rfl⟩

/-! ## Execution-gateway lemmas -/

theorem fetch_rows_subset (raw : List (List DbValue)) (m : Option Int) :
    ∀ r ∈ fetch_rows raw m, r ∈ raw := by
  intro r hr
  unfold fetch_rows at hr
  split at hr
  · exact List.take_subset _ _ hr
  · exact hr

theorem foldl_dictSet_keys_toFinset {κ α β : Type} [DecidableEq κ] (f : β → α)
    (l : List (κ × β)) (d : List (κ × α)) :
    (dictKeys (l.foldl (fun acc kv => dictSet acc kv.1 (f kv.2)) d)).toFinset
      = (dictKeys d).toFinset ∪ (l.map Prod.fst).toFinset := by
  induction l generalizing d with
  | nil => simp
  | cons kv rest ih =>
    rw [List.foldl_cons, ih, dictKeys_dictSet]
    by_cases h : dictHas d kv.1
    · have hmem : kv.1 ∈ dictKeys d := (dictHas_iff_mem _ _).mp h
      rw [if_pos h]
      ext x
      simp
      aesop
    · rw [if_neg h]
      ext x
      simp
      aesop

theorem foldl_dictSet_keys_nodup {κ α β : Type} [DecidableEq κ] (f : β → α)
    (l : List (κ × β)) (d : List (κ × α)) (h : (dictKeys d).Nodup) :
    (dictKeys (l.foldl (fun acc kv => dictSet acc kv.1 (f kv.2)) d)).Nodup := by
  induction l generalizing d with
  | nil => exact h
  | cons kv rest ih =>
    rw [List.foldl_cons]
    exact ih _ (nodup_dictKeys_dictSet _ _ _ h)

theorem dict_row_length (columns : List String) (row : List DbValue)
    (h : row.length = columns.length) :
    (dict_row columns row).length = columns.dedup.length := by
  have hz : (columns.zip row).map Prod.fst = columns :=
    List.map_fst_zip _ _ (le_of_eq h.symm)
  have hnd : (dictKeys (dict_row columns row)).Nodup :=
    foldl_dictSet_keys_nodup _ _ _ (by simp [dictKeys])
  have hfin : (dictKeys (dict_row columns row)).toFinset = columns.toFinset := by
    simpa [dict_row, dictKeys, hz] using
      foldl_dictSet_keys_toFinset _convert_value (columns.zip row) []
  calc (dict_row columns row).length
      = (dictKeys (dict_row columns row)).length := by simp [dictKeys]
    _ = (dictKeys (dict_row columns row)).toFinset.card :=
        (List.toFinset_card_of_nodup hnd).symm
    _ = columns.toFinset.card := by rw [hfin]
    _ = columns.dedup.length := List.card_toFinset _

/-- C3 (amended): for a registry entry `k` with `last_used = t`, an undisturbed
reaper tick at time `now` removes it iff it is stale at the scan
(`now - t > POOL_TIMEOUT`); an entry within the timeout at the scan is retained
unchanged. (A use that lands between the tick's scan and its close phase does
NOT protect the entry — see the counterexample.) -/
theorem reaper_tick_removes_stale_retains_fresh
    (s : PoolManagerState) (now t : Nat) (k : String)
    (hndp : (dictKeys s.pools).Nodup) (hndl : (dictKeys s.last_used).Nodup)
    (hget : dictGet s.last_used k = some t) :
    (now - t > POOL_TIMEOUT → dictGet (reaper_tick s now).pools k = none) ∧
    (now - t ≤ POOL_TIMEOUT → dictGet (reaper_tick s now).pools k = dictGet s.pools k) := by
  have hc := close_keys_dictGet (scan_idle s now) s k hndp
  constructor
  · intro hgt
    rw [reaper_tick, hc, if_pos ((mem_scan_idle_iff s now k t hndl hget).mpr hgt)]
  · intro hle
    have hnotmem : k ∉ scan_idle s now := fun hmem =>
      absurd ((mem_scan_idle_iff s now k t hndl hget).mp hmem) (by omega)
    rw [reaper_tick, hc, if_neg hnotmem]

/-- Witness for the amended C3: registry with a stale entry `"a@x"` (last used
at 0) and a fresh entry `"b@y"` (last used at 100), tick at time 121. -/
theorem reaper_tick_removes_stale_retains_fresh_witness :
    (121 - 100 > POOL_TIMEOUT →
      dictGet (reaper_tick ⟨[("a@x", 0), ("b@y", 1)], [("a@x", 0), ("b@y", 100)], 2⟩
        121).pools "b@y" = none) ∧
    (121 - 100 ≤ POOL_TIMEOUT →
      dictGet (reaper_tick ⟨[("a@x", 0), ("b@y", 1)], [("a@x", 0), ("b@y", 100)], 2⟩
        121).pools "b@y"
        = dictGet ([("a@x", 0), ("b@y", 1)] : List (String × Nat)) "b@y") :=
  reaper_tick_removes_stale_retains_fresh
    ⟨[("a@x", 0), ("b@y", 1)], [("a@x", 0), ("b@y", 100)], 2⟩ 121 100 "b@y"
    (by decide) (by decide) (by decide)

/-- C3 counterexample (the parenthetical of the claim): entry `"u@db"` is stale
at the scan (121 - 0 > 120), a `get_pool` at time 121 between the scan and the
close phase refreshes it (`last_used = 121`, within the timeout at close time),
yet the close phase still removes it from the registry. -/
theorem reaper_interleaved_use_still_removed_counterexample :
    dictGet ((get_pool (⟨[("u@db", 0)], [("u@db", 0)], 1⟩ : PoolManagerState)
        ⟨"c", "db", "u", "pw"⟩ 121).2).last_used "u@db" = some 121 ∧
    121 - 121 ≤ POOL_TIMEOUT ∧
    dictGet (close_keys
        ((get_pool (⟨[("u@db", 0)], [("u@db", 0)], 1⟩ : PoolManagerState)
          ⟨"c", "db", "u", "pw"⟩ 121).2)
        (scan_idle (⟨[("u@db", 0)], [("u@db", 0)], 1⟩ : PoolManagerState) 121)).pools
      "u@db" = none := by
  decide

/-- C4 (amended): for `max_rows = k` with `k ≥ 1` on a statement whose full
result has `n > k` rows, exactly `k` rows are returned and `row_count = k`.
(`k = 0` is excluded: Python truthiness makes it fetch all rows, see the
counterexample.) -/
theorem execute_caps_rows (columns : List String) (raw : List (List DbValue))
    (k : Int) (h1 : 1 ≤ k) (h2 : k < (raw.length : Int)) :
    (_execute_query_sync columns raw (some k)).rows.length = k.toNat ∧
    (_execute_query_sync columns raw (some k)).row_count = k.toNat := by
  have hk : maxRowsTruthy (some k) = true := by
    simp only [maxRowsTruthy, bne_iff_ne, ne_eq, decide_not]
    omega
  have hle : k.toNat ≤ raw.length := by omega
  have hlen : (fetch_rows raw (some k)).length = k.toNat := by
    simp [fetch_rows, hk, List.length_take, Nat.min_eq_left hle]
  constructor <;> simp [_execute_query_sync, hlen]

/-- Witness for the amended C4: `max_rows = 2` against a 3-row result. -/
theorem execute_caps_rows_witness :
    (_execute_query_sync ["A"]
      [[DbValue.vint 1], [DbValue.vint 2], [DbValue.vint 3]] (some 2)).rows.length
      = (2 : Int).toNat ∧
    (_execute_query_sync ["A"]
      [[DbValue.vint 1], [DbValue.vint 2], [DbValue.vint 3]] (some 2)).row_count
      = (2 : Int).toNat :=
  execute_caps_rows ["A"] [[DbValue.vint 1], [DbValue.vint 2], [DbValue.vint 3]] 2
    (by decide) (by decide)

/-- C4 counterexample: `max_rows = 0` against a 1-row result (`n = 1 > 0 = k`)
returns 1 row, not 0 — `if request.max_rows:` treats 0 as falsy and fetches all. -/
theorem execute_max_rows_zero_counterexample :
    (_execute_query_sync ["A"] [[DbValue.vint 7]] (some 0)).row_count = 1 ∧
    (_execute_query_sync ["A"] [[DbValue.vint 7]] (some 0)).row_count ≠ 0 := by
  decide

/-- C5 (amended): a request body that omits `max_rows` gets the pydantic default
1000, so the result is capped at 1000 rows (`min 1000 n`); only an explicit
`max_rows: null` fetches all rows. -/
theorem omitted_max_rows_defaults_to_1000 (columns : List String)
    (raw : List (List DbValue)) :
    parse_max_rows .omitted = some 1000 ∧
    (_execute_query_sync columns raw (parse_max_rows .omitted)).row_count
      = min 1000 raw.length ∧
    (_execute_query_sync columns raw (parse_max_rows .omitted)).rows.length
      = min 1000 raw.length ∧
    (_execute_query_sync columns raw none).row_count = raw.length := by
  have h1000 : maxRowsTruthy (some 1000) = true := by decide
  refine ⟨rfl, ?_, ?_, ?_⟩
  · simp [parse_max_rows, _execute_query_sync, fetch_rows, h1000,
      List.length_take, Int.toNat_ofNat]
  · simp [parse_max_rows, _execute_query_sync, fetch_rows, h1000,
      List.length_take, Int.toNat_ofNat]
  · simp [_execute_query_sync, fetch_rows, maxRowsTruthy]

set_option maxRecDepth 4000 in
/-- C5 counterexample: omitting `max_rows` against a 1001-row result returns
1000 rows, not all 1001 — no-cap-when-absent fails on the code. -/
theorem omitted_max_rows_caps_counterexample :
    (_execute_query_sync ["A"] (List.replicate 1001 [DbValue.vint 0])
      (parse_max_rows .omitted)).row_count = 1000 ∧
    (List.replicate 1001 [DbValue.vint 0]).length = 1001 := by
  have h1000 : maxRowsTruthy (some 1000) = true := by decide
  constructor
  · simp [parse_max_rows, _execute_query_sync, fetch_rows, h1000,
      List.length_take, List.length_replicate, Int.toNat_ofNat]
  · simp [List.length_replicate]

/-- C7 (amended): when every raw row has the driver-guaranteed arity
(`len(row) = len(columns)`), every positional result row has arity
`columns.length`, and every dict-mode row has as many entries as there are
DISTINCT column names (duplicate names collapse — see the counterexample). -/
theorem columns_arity_invariant (columns : List String) (raw : List (List DbValue))
    (max_rows : Option Int) (h : ∀ r ∈ raw, r.length = columns.length) :
    (∀ r ∈ (_execute_query_sync columns raw max_rows).rows,
        r.length = (_execute_query_sync columns raw max_rows).columns.length) ∧
    (∀ r ∈ (_execute_query_sync_dict columns raw max_rows).rows,
        r.length = columns.dedup.length) := by
  constructor
  · intro r hr
    simp only [_execute_query_sync, List.mem_map] at hr
    rcases hr with ⟨r0, hr0, rfl⟩
    simp [_execute_query_sync, h r0 (fetch_rows_subset raw max_rows r0 hr0)]
  · intro r hr
    simp only [_execute_query_sync_dict, List.mem_map] at hr
    rcases hr with ⟨r0, hr0, rfl⟩
    exact dict_row_length columns r0 (h r0 (fetch_rows_subset raw max_rows r0 hr0))

/-- Witness for the amended C7: two distinct columns, two 2-cell rows. -/
theorem columns_arity_invariant_witness :
    (∀ r ∈ (_execute_query_sync ["A", "B"]
        [[DbValue.vint 1, DbValue.vnone], [DbValue.vstr "x", DbValue.vint 2]]
        (some 1000)).rows,
      r.length = (_execute_query_sync ["A", "B"]
        [[DbValue.vint 1, DbValue.vnone], [DbValue.vstr "x", DbValue.vint 2]]
        (some 1000)).columns.length) ∧
    (∀ r ∈ (_execute_query_sync_dict ["A", "B"]
        [[DbValue.vint 1, DbValue.vnone], [DbValue.vstr "x", DbValue.vint 2]]
        (some 1000)).rows,
      r.length = (["A", "B"] : List String).dedup.length) :=
  columns_arity_invariant ["A", "B"]
    [[DbValue.vint 1, DbValue.vnone], [DbValue.vstr "x", DbValue.vint 2]]
    (some 1000) (by decide)

/-- C7 counterexample: with duplicate column names `["ID", "ID"]` and a 2-cell
row, dict mode collapses the row to a single entry — 1 entry ≠ 2 columns — while
the raw row did have the full arity 2. -/
theorem dict_mode_duplicate_columns_counterexample :
    (_execute_query_sync_dict ["ID", "ID"] [[DbValue.vint 1, DbValue.vint 2]]
      (some 1000)).columns.length = 2 ∧
    ([DbValue.vint 1, DbValue.vint 2] : List DbValue).length = 2 ∧
    (_execute_query_sync_dict ["ID", "ID"] [[DbValue.vint 1, DbValue.vint 2]]
      (some 1000)).rows = [[("ID", DbValue.vint 2)]] := by
  decide

/-- C8: `oracle_error_to_response` reports the first driver arg's numeric code
(0 when `args` is empty or the attribute is absent), passes the message through,
and yields a hint exactly for codes in the static table — e.g. `some` for 1017
(invalid credentials), `none` for a code outside the table. It is a pure
function of the error value. -/
theorem classify_code_and_hint :
    (∀ e : OracleError,
      (oracle_error_to_response e).code
        = (match e.args.head? with
           | some o => o.code.getD 0
           | none => 0) ∧
      (oracle_error_to_response e).message = e.message ∧
      ((oracle_error_to_response e).hint.isSome = true
        ↔ (oracle_error_to_response e).code ∈ dictKeys hints)) ∧
    (oracle_error_to_response ⟨[⟨some 1017⟩], "ORA-01017"⟩).hint
      = some "Check your username and password." ∧
    (oracle_error_to_response ⟨[⟨some 9999⟩], "ORA-09999"⟩).hint = none ∧
    (oracle_error_to_response ⟨[], "boom"⟩).code = 0 := by
  refine ⟨fun e => ⟨rfl, rfl, ?_⟩, by decide, by decide, rfl⟩
  exact dictGet_isSome_iff hints _

/-- C9: `_convert_value` always lands in the closed transport-safe set
{null, boolean, number, string}; `None` and `True` map to themselves, a
`datetime` maps to its ISO-8601 string, and any value outside the set maps to
its textual (`str`) form. -/
theorem convert_value_closed_set :
    (∀ v : DbValue, isTransportSafe (_convert_value v) = true) ∧
    _convert_value .vnone = .vnone ∧
    _convert_value (.vbool true) = .vbool true ∧
    (∀ d : PyDatetime, _convert_value (.vdatetime d) = .vstr d.isoformat) ∧
    (∀ r : String, _convert_value (.vother r) = .vstr r) := by
  refine ⟨fun v => ?_, rfl, rfl, fun d => rfl, fun r => rfl⟩
  cases v <;> rfl

/-- C10: `max_rows = 0` is falsy in `if request.max_rows:`, so the gateway
takes the `fetchall` branch — all rows are returned, exactly as for an explicit
null limit, not zero rows. -/
theorem max_rows_zero_fetches_all (columns : List String)
    (raw : List (List DbValue)) :
    (_execute_query_sync columns raw (some 0)).row_count = raw.length ∧
    (_execute_query_sync columns raw (some 0)).rows
      = (_execute_query_sync columns raw none).rows := by
  constructor <;> simp [_execute_query_sync, fetch_rows, maxRowsTruthy]

end OracleSidecar
